import Mathlib

/-!
Verification development for the `piper-rt-maker` repository (`src/tasks.py`).

The pipeline discovers voice checkpoints in an upstream dataset listing,
resolves the delta against a previously published metadata index, runs a
per-voice export/package transform inside a failure-isolating loop, and
republishes the metadata index.  Pure fragments of the Python source are
embedded as Lean functions; the effectful collaborators (HTTP fetches, the
external export tool, uploads) are modelled as explicit parameters (oracles
and per-step outcome flags), and the local working directory as an explicit
list of entries that is threaded through the loop.
-/

namespace PiperRT

/-- Flat JSON scalar values.  The config-rewrite and metadata code in
`tasks.py` only ever inspects top-level keys and inserts booleans and
strings, so values other than these are irrelevant to the claims and are
modelled by the scalar constructors. -/
inductive JVal where
  | str (s : String)
  | num (n : Int)
  | bool (b : Bool)
  | null
  deriving DecidableEq

/-- A JSON object as an insertion-ordered association list, mirroring a
Python `dict` (Python 3.7+ preserves insertion order). -/
abbrev JObj := List (String × JVal)

/-- The `Voice` dataclass of `tasks.py` (lines 23-28). -/
structure Voice where
  name : String
  config : String
  checkpoint : String
  etag : String
  deriving DecidableEq

/-- Python `str.split("-")`: split a character list at every dash,
preserving empty pieces (`"".split("-") == [""]`). -/
def splitDash : List Char → List (List Char)
  | [] => [[]]
  | c :: rest =>
    if c = '-' then [] :: splitDash rest
    else
      match splitDash rest with
      | [] => [[c]]
      | h :: t => (c :: h) :: t

/-- The dash-separated components of a string, as Python's
`s.split("-")` produces them. -/
def dashComponents (s : String) : List String :=
  (splitDash s.data).map (fun cs => String.mk cs)

/-- Python `sep.join(xs)`. -/
def joinWith (sep : String) : List String → String
  | [] => ""
  | [s] => s
  | s :: t :: rest => s ++ sep ++ joinWith sep (t :: rest)

/-- Index of the last `'.'` in a character list, if any. -/
def lastDotIdx : List Char → Option Nat
  | [] => none
  | c :: rest =>
    match lastDotIdx rest with
    | some i => some (i + 1)
    | none => if c = '.' then some 0 else none

/-- `pathlib` `suffix` of a file name: `name[i:]` where `i` is the index of
the last dot, provided `0 < i < len(name) - 1`; otherwise empty. -/
def pathSuffix (name : String) : String :=
  match lastDotIdx name.data with
  | some i => if 0 < i ∧ i < name.data.length - 1 then String.mk (name.data.drop i) else ("")
  | none => ""

/-- A relative POSIX path, modelled by its `PurePosixPath.parts` segment
list. -/
abbrev PPath := List String

/-- `PurePosixPath.name`: the final path segment (empty for the empty
path). -/
def pname : PPath → String
  | [] => ""
  | [a] => a
  | _ :: b :: t => pname (b :: t)

/-- `PurePosixPath.parent`, as a segment list: all segments but the last. -/
def parentDir : PPath → PPath
  | [] => []
  | [_] => []
  | a :: b :: t => a :: parentDir (b :: t)

/-- `os.fspath` / `str` of a relative `PurePosixPath`: segments joined by
slashes, `"."` for the empty path. -/
def fspath (p : PPath) : String :=
  if p = [] then (".") else joinWith ("/") p

/-- The checkpoint search of `tasks.py` lines 184-187: the first file in the
listing whose parent equals the config's parent and whose suffix is
`.ckpt`. -/
def findCkpt (files : List PPath) (dir : PPath) : Option PPath :=
  files.find? (fun f => parentDir f == dir && pathSuffix (pname f) == ".ckpt")

/-- The `Voice` record built for one qualifying grouping (`tasks.py` lines
181-198): the name joins the grouping directory's segments except the first
with dashes; the etag comes from the remote metadata fetch, modelled by the
oracle `etagOf`. -/
def mkVoice (etagOf : PPath → String) (cfg ck : PPath) : Voice :=
  { name := joinWith ("-") ((parentDir cfg).drop 1)
    config := fspath cfg
    checkpoint := fspath ck
    etag := etagOf ck }

/-- Voice Discovery (`tasks.py` lines 175-199): one voice per file named
`config.json` whose directory also holds a `.ckpt` file; groupings without
a checkpoint are skipped (the `except StopIteration: continue`). -/
def discoverVoices (etagOf : PPath → String) (files : List PPath) : List Voice :=
  (files.filter (fun f => pname f == "config.json")).filterMap
    (fun cfg => (findCkpt files (parentDir cfg)).map (fun ck => mkVoice etagOf cfg ck))

/-- The config files that additionally have a checkpoint sibling. -/
def qualifyingConfigs (files : List PPath) : List PPath :=
  (files.filter (fun f => pname f == "config.json")).filter
    (fun cfg => (findCkpt files (parentDir cfg)).isSome)

/-- The distinct directory groupings that contain a `config.json` and at
least one checkpoint candidate. -/
def qualifyingGroupings (files : List PPath) : List PPath :=
  ((qualifyingConfigs files).map parentDir).dedup

/-- Serialization of one `Voice` as `dataclasses.asdict` produces it
(`tasks.py` lines 109-112): fields in declaration order. -/
def voiceToJson (v : Voice) : JObj :=
  [("name", JVal.str v.name), ("config", JVal.str v.config),
   ("checkpoint", JVal.str v.checkpoint), ("etag", JVal.str v.etag)]

/-- The metadata document written by `dump_voices_metadata` (`tasks.py`
lines 106-114): the JSON array of the serialized voices, uploaded as
`metadata.json`, overwriting the previous index. -/
def dump_voices_metadata (voices : List Voice) : List JObj :=
  voices.map voiceToJson

/-- `Voice(**d)` (`tasks.py` line 38): construct a voice from a JSON object
holding exactly the four dataclass fields; anything else raises, modelled
as `none`.  (Field values in every index the pipeline writes are strings.) -/
def parseVoice (obj : JObj) : Option Voice :=
  match obj.lookup ("name"), obj.lookup ("config"), obj.lookup ("checkpoint"), obj.lookup ("etag") with
  | some (JVal.str n), some (JVal.str c), some (JVal.str k), some (JVal.str e) =>
    if obj.length = 4 then some { name := n, config := c, checkpoint := k, etag := e }
    else none
  | _, _, _, _ => none

/-- The list comprehension `[Voice(**d) for d in metadata_response.json()]`
(`tasks.py` lines 37-40): parse every record or fail. -/
def parseVoices : List JObj → Option (List Voice)
  | [] => some []
  | o :: rest =>
    match parseVoice o, parseVoices rest with
    | some v, some vs => some (v :: vs)
    | _, _ => none

/-- The `already_processed` test of `tasks.py` lines 43-46: some published
record matches on `config`, `checkpoint` and `etag` (the `name` field is
not compared). -/
def alreadyProcessed (processed : List Voice) (v : Voice) : Bool :=
  processed.any (fun p =>
    p.config == v.config && p.checkpoint == v.checkpoint && p.etag == v.etag)

/-- The filtering loop of `tasks.py` lines 41-50: keep, in order, the
discovered voices that are not already processed. -/
def resolveDelta (processed : List Voice) : List Voice → List Voice
  | [] => []
  | v :: rest =>
    if alreadyProcessed processed v then resolveDelta processed rest
    else v :: resolveDelta processed rest

/-- Outcome of the destination metadata fetch
(`requests.get(.../metadata.json)` in `tasks.py` line 32). -/
inductive MetadataFetch where
  | notFound
  | ok (body : List JObj)
  | httpError (code : Nat)
  deriving DecidableEq

/-- Errors that escape `get_updated_voices` and abort the run. -/
inductive PipelineError where
  | httpStatus (code : Nat)
  | badMetadata
  deriving DecidableEq

/-- `get_updated_voices` (`tasks.py` lines 31-50): a 401 from the metadata
endpoint means "nothing published yet" and every discovered voice is
returned; any other non-2xx raises (`raise_for_status`); otherwise the
published records are parsed and the delta loop runs. -/
def get_updated_voices (fetch : MetadataFetch) (voices : List Voice) :
    Except PipelineError (List Voice) :=
  match fetch with
  | MetadataFetch.notFound => Except.ok voices
  | MetadataFetch.httpError code => Except.error (PipelineError.httpStatus code)
  | MetadataFetch.ok body =>
    match parseVoices body with
    | none => Except.error PipelineError.badMetadata
    | some processed => Except.ok (resolveDelta processed voices)

/-- Python `d[k] = v` on an insertion-ordered dict: replace in place when
the key is present, append otherwise. -/
def setKey (obj : JObj) (k : String) (v : JVal) : JObj :=
  if obj.any (fun p => p.1 == k) then
    obj.map (fun p => if p.1 == k then (k, v) else p)
  else obj ++ [(k, v)]

/-- The derived voice name of `tasks.py` lines 75-80:
`"-".join([parts[0], parts[1] + "+RT", parts[2]])` where
`parts = voice.name.split("-")`; fewer than three parts raises
`IndexError`, modelled as `none`. -/
def deriveName (name : String) : Option String :=
  match dashComponents name with
  | p0 :: p1 :: p2 :: _ => some (joinWith ("-") [p0, p1 ++ "+RT", p2])
  | _ => none

/-- The config rewrite of `tasks.py` lines 72-86: set `streaming` to true,
then set `key` to the derived name. -/
def transformConfig (voiceName : String) (config : JObj) : Option JObj :=
  let c1 := setKey config ("streaming") (JVal.bool true)
  match deriveName voiceName with
  | none => none
  | some newName => some (setKey c1 ("key") (JVal.str newName))

/-- Success or failure of each effectful step inside `export_and_package`
(`tasks.py` lines 53-103): the checkpoint download (`raise_for_status`),
the external export tool (`c.run`), the config fetch/decoding, and the
archive upload.  Each `false` stands for a raised exception at that step. -/
structure StepEnv where
  downloadOk : Bool
  exportOk : Bool
  configOk : Bool
  uploadOk : Bool
  deriving DecidableEq

/-- Add a top-level entry to the working directory (idempotent, like
`mkdir(exist_ok=True)` and file overwrites). -/
def addEntry (w : List String) (e : String) : List String :=
  if e ∈ w then w else w ++ [e]

/-- The file-system effect skeleton of `export_and_package` (`tasks.py`
lines 53-103) on the top-level entries of the working directory: it creates
`exported/`, writes `checkpoint.ckpt`, writes the archive, and only after a
successful upload runs the cleanup `rm -rf *`.  Any step that raises
returns the exception with the directory as it stands at that point —
there is no cleanup on the failure paths. -/
def export_and_package (env : StepEnv) (v : Voice) (w : List String) :
    Except String Unit × List String :=
  let w1 := addEntry w ("exported")
  if !env.downloadOk then (Except.error ("download failed"), w1)
  else
    let w2 := addEntry w1 ("checkpoint.ckpt")
    if !env.exportOk then (Except.error ("export tool failed"), w2)
    else if !env.configOk then (Except.error ("config fetch failed"), w2)
    else
      match deriveName v.name with
      | none => (Except.error ("IndexError"), w2)
      | some newName =>
        let w3 := addEntry w2 (newName ++ ".tar.gz")
        if !env.uploadOk then (Except.error ("upload failed"), w3)
        else (Except.ok (), [])

/-- Whether an `Except` value is a success. -/
def isOkB : Except String Unit → Bool
  | Except.ok _ => true
  | Except.error _ => false

/-- The per-voice processing loop of `run` (`tasks.py` lines 203-209),
with the working directory threaded through: each trace element records
the directory contents at the start of the iteration, the voice, and
whether its transform succeeded.  The bare `except:` catches the failure
and the loop continues with the directory exactly as the failed iteration
left it. -/
def loopTrace (envOf : Voice → StepEnv) : List Voice → List String →
    List (List String × Voice × Bool)
  | [], _ => []
  | v :: rest, w =>
    let r := export_and_package (envOf v) v w
    (w, v, isOkB r.fst) :: loopTrace envOf rest r.snd

/-- What a run produces: the processing trace and the metadata document
published at the end. -/
structure RunOutput where
  trace : List (List String × Voice × Bool)
  publishedIndex : List JObj
  deriving DecidableEq

/-- The `run` task (`tasks.py` lines 151-212), after bootstrap: discovery
over the upstream listing, delta resolution, the failure-isolated
processing loop starting from an empty working directory, and finally
`dump_voices_metadata(voices, ...)` — note it serializes the full
discovered set `voices`, not the delta `updated_voices`. -/
def run (etagOf : PPath → String) (files : List PPath) (fetch : MetadataFetch)
    (envOf : Voice → StepEnv) : Except PipelineError RunOutput :=
  let voices := discoverVoices etagOf files
  match get_updated_voices fetch voices with
  | Except.error e => Except.error e
  | Except.ok updated =>
    Except.ok { trace := loopTrace envOf updated []
                publishedIndex := dump_voices_metadata voices }

/-! ### Helper lemmas -/

lemma mem_discoverVoices {etagOf : PPath → String} {files : List PPath} {v : Voice} :
    v ∈ discoverVoices etagOf files ↔
      ∃ cfg, cfg ∈ files ∧ pname cfg = "config.json" ∧
        ∃ ck, findCkpt files (parentDir cfg) = some ck ∧ v = mkVoice etagOf cfg ck := by
  simp only [discoverVoices, List.mem_filterMap, List.mem_filter, Option.map_eq_some',
    beq_iff_eq]
  constructor
  · rintro ⟨cfg, ⟨hcfg, hname⟩, ck, hck, rfl⟩
    exact ⟨cfg, hcfg, hname, ck, hck, rfl⟩
  · rintro ⟨cfg, hcfg, hname, ck, hck, rfl⟩
    exact ⟨cfg, ⟨hcfg, hname⟩, ck, hck, rfl⟩

lemma length_filterMap_isSome {α β : Type} (g : α → Option β) (l : List α) :
    (l.filterMap g).length = (l.filter (fun x => (g x).isSome)).length := by
  induction l with
  | nil => rfl
  | cons a t ih =>
    cases h : g a <;> simp [List.filterMap_cons, List.filter_cons, h, ih]

lemma parentDir_append_pname (a : String) (t : PPath) :
    parentDir (a :: t) ++ [pname (a :: t)] = a :: t := by
  induction t generalizing a with
  | nil => rfl
  | cons b u ih => simp [parentDir, pname, ih b]

lemma length_discoverVoices_eq_qualifyingConfigs (etagOf : PPath → String)
    (files : List PPath) :
    (discoverVoices etagOf files).length = (qualifyingConfigs files).length := by
  rw [discoverVoices, qualifyingConfigs, length_filterMap_isSome]
  congr 1
  refine List.filter_congr (fun cfg _ => ?_)
  exact Option.isSome_map'

lemma qualifyingConfigs_nodup {files : List PPath} (h : files.Nodup) :
    (qualifyingConfigs files).Nodup :=
  (h.filter _).filter _

lemma mem_qualifyingConfigs_shape {files : List PPath} {cfg : PPath}
    (h : cfg ∈ qualifyingConfigs files) :
    parentDir cfg ++ [pname cfg] = cfg ∧ pname cfg = "config.json" := by
  have h1 : cfg ∈ files.filter (fun f => pname f == "config.json") :=
    (List.mem_filter.1 h).1
  have h2 : pname cfg = "config.json" := by
    simpa [beq_iff_eq] using (List.mem_filter.1 h1).2
  cases cfg with
  | nil => simp [pname] at h2
  | cons a t => exact ⟨parentDir_append_pname a t, h2⟩

lemma length_qualifyingGroupings {files : List PPath} (h : files.Nodup) :
    (qualifyingGroupings files).length = (qualifyingConfigs files).length := by
  rw [qualifyingGroupings]
  have hnd : ((qualifyingConfigs files).map parentDir).Nodup := by
    refine (qualifyingConfigs_nodup h).map_on ?_
    intro x hx y hy hxy
    obtain ⟨hxs, hxn⟩ := mem_qualifyingConfigs_shape hx
    obtain ⟨hys, hyn⟩ := mem_qualifyingConfigs_shape hy
    rw [← hxs, ← hys, hxn, hyn, hxy]
  rw [List.dedup_eq_self.2 hnd, List.length_map]

lemma alreadyProcessed_iff {processed : List Voice} {v : Voice} :
    alreadyProcessed processed v = true ↔
      ∃ p ∈ processed,
        p.config = v.config ∧ p.checkpoint = v.checkpoint ∧ p.etag = v.etag := by
  simp [alreadyProcessed, List.any_eq_true, and_assoc]

lemma mem_resolveDelta {processed voices : List Voice} {v : Voice} :
    v ∈ resolveDelta processed voices ↔
      v ∈ voices ∧ ∀ p ∈ processed,
        ¬(p.config = v.config ∧ p.checkpoint = v.checkpoint ∧ p.etag = v.etag) := by
  induction voices with
  | nil => simp [resolveDelta]
  | cons a t ih =>
    rw [resolveDelta]
    by_cases h : alreadyProcessed processed a = true
    · rw [if_pos h, ih]
      obtain ⟨p, hp, hpe⟩ := alreadyProcessed_iff.1 h
      constructor
      · rintro ⟨hv, hP⟩
        exact ⟨List.mem_cons_of_mem _ hv, hP⟩
      · rintro ⟨hv, hP⟩
        rcases List.mem_cons.1 hv with rfl | hv'
        · exact absurd hpe (hP p hp)
        · exact ⟨hv', hP⟩
    · rw [if_neg h, List.mem_cons, ih]
      constructor
      · rintro (rfl | ⟨hv, hP⟩)
        · refine ⟨List.mem_cons_self _ _, ?_⟩
          intro p hp hc
          exact h (alreadyProcessed_iff.2 ⟨p, hp, hc⟩)
        · exact ⟨List.mem_cons_of_mem _ hv, hP⟩
      · rintro ⟨hv, hP⟩
        rcases List.mem_cons.1 hv with rfl | hv'
        · exact Or.inl rfl
        · exact Or.inr ⟨hv', hP⟩

lemma resolveDelta_nil_processed (voices : List Voice) :
    resolveDelta [] voices = voices := by
  induction voices with
  | nil => rfl
  | cons a t ih => simp [resolveDelta, alreadyProcessed, ih]

lemma resolveDelta_sublist (processed voices : List Voice) :
    (resolveDelta processed voices).Sublist voices := by
  induction voices with
  | nil => simp [resolveDelta]
  | cons a t ih =>
    rw [resolveDelta]
    by_cases h : alreadyProcessed processed a = true
    · rw [if_pos h]
      exact ih.cons a
    · rw [if_neg h]
      exact ih.cons₂ a

lemma alreadyProcessed_map_name (rename : Voice → String) (processed : List Voice)
    (v : Voice) :
    alreadyProcessed (processed.map (fun p => { p with name := rename p })) v
      = alreadyProcessed processed v := by
  rw [alreadyProcessed, alreadyProcessed, List.any_map]
  rfl

lemma resolveDelta_map_name (rename : Voice → String) (processed voices : List Voice) :
    resolveDelta (processed.map (fun p => { p with name := rename p })) voices
      = resolveDelta processed voices := by
  induction voices with
  | nil => rfl
  | cons a t ih => rw [resolveDelta, resolveDelta, alreadyProcessed_map_name, ih]

lemma parseVoice_voiceToJson (v : Voice) : parseVoice (voiceToJson v) = some v := rfl

lemma parseVoices_dump (voices : List Voice) :
    parseVoices (dump_voices_metadata voices) = some voices := by
  induction voices with
  | nil => rfl
  | cons v t ih =>
    simp [dump_voices_metadata] at ih
    simp [dump_voices_metadata, parseVoices, parseVoice_voiceToJson, ih]

lemma loopTrace_voices (envOf : Voice → StepEnv) (vs : List Voice) :
    ∀ w : List String, (loopTrace envOf vs w).map (fun t => t.2.1) = vs := by
  induction vs with
  | nil => intro w; rfl
  | cons v t ih => intro w; simp [loopTrace, ih]

lemma any_key_iff (obj : JObj) (k : String) :
    obj.any (fun p => p.1 == k) = true ↔ k ∈ obj.map Prod.fst := by
  rw [List.any_eq_true]
  constructor
  · rintro ⟨p, hp, hpk⟩
    have hh : p.1 = k := by simpa using hpk
    exact hh ▸ List.mem_map_of_mem Prod.fst hp
  · intro hk
    obtain ⟨p, hp, hpk⟩ := List.mem_map.1 hk
    exact ⟨p, hp, by simp [hpk]⟩

lemma lookup_cons_hit {k a : String} {b : JVal} {t : JObj} (h : (k == a) = true) :
    List.lookup k ((a, b) :: t) = some b := by
  simp only [List.lookup, h]

lemma lookup_cons_miss {k a : String} {b : JVal} {t : JObj} (h : (k == a) = false) :
    List.lookup k ((a, b) :: t) = List.lookup k t := by
  simp only [List.lookup, h]

lemma lookup_replace_self (k : String) (v : JVal) (obj : JObj) :
    obj.any (fun p => p.1 == k) = true →
      (obj.map (fun p => if p.1 == k then (k, v) else p)).lookup k = some v := by
  induction obj with
  | nil => intro h; rw [List.any_nil] at h; exact absurd h Bool.false_ne_true
  | cons p t ih =>
    intro h
    obtain ⟨a, b⟩ := p
    cases hp : a == k
    · have hne : a ≠ k := beq_eq_false_iff_ne.1 hp
      have hk : (k == a) = false := beq_eq_false_iff_ne.2 (Ne.symm hne)
      have ht : t.any (fun q => q.1 == k) = true := by
        rw [List.any_cons] at h
        simpa [hp] using h
      rw [List.map_cons, if_neg (by simp [hp]), lookup_cons_miss hk]
      exact ih ht
    · rw [List.map_cons, if_pos hp, lookup_cons_hit (beq_self_eq_true k)]

lemma lookup_append_single_self (k : String) (v : JVal) (obj : JObj) :
    obj.any (fun p => p.1 == k) = false →
      ((obj ++ [(k, v)]).lookup k) = some v := by
  induction obj with
  | nil => intro _; exact lookup_cons_hit (beq_self_eq_true k)
  | cons p t ih =>
    intro h
    obtain ⟨a, b⟩ := p
    have hp : (a == k) = false := by
      cases hpk : a == k
      · rfl
      · rw [List.any_cons, hpk] at h
        simp at h
    have hne : a ≠ k := beq_eq_false_iff_ne.1 hp
    have hk : (k == a) = false := beq_eq_false_iff_ne.2 (Ne.symm hne)
    have ht : t.any (fun q => q.1 == k) = false := by
      rw [List.any_cons, hp] at h
      simpa using h
    rw [List.cons_append, lookup_cons_miss hk]
    exact ih ht

lemma lookup_setKey_self (obj : JObj) (k : String) (v : JVal) :
    (setKey obj k v).lookup k = some v := by
  rw [setKey]
  cases h : obj.any (fun p => p.1 == k)
  · rw [if_neg (by simp)]
    exact lookup_append_single_self k v obj h
  · rw [if_pos rfl]
    exact lookup_replace_self k v obj h

lemma lookup_replace_ne (k k' : String) (v : JVal) (obj : JObj) (hne : k' ≠ k) :
    (obj.map (fun p => if p.1 == k then (k, v) else p)).lookup k' = obj.lookup k' := by
  induction obj with
  | nil => rfl
  | cons p t ih =>
    obtain ⟨a, b⟩ := p
    cases hp : a == k
    · rw [List.map_cons, if_neg (by simp [hp])]
      cases hk' : (k' == a)
      · rw [lookup_cons_miss hk', lookup_cons_miss hk', ih]
      · rw [lookup_cons_hit hk', lookup_cons_hit hk']
    · have hak : a = k := by simpa using hp
      have h1 : (k' == k) = false := beq_eq_false_iff_ne.2 hne
      have h2 : (k' == a) = false := by rw [hak]; exact h1
      rw [List.map_cons, if_pos hp, lookup_cons_miss h1, lookup_cons_miss h2, ih]

lemma lookup_append_single_ne (k k' : String) (v : JVal) (obj : JObj) (hne : k' ≠ k) :
    ((obj ++ [(k, v)]).lookup k') = obj.lookup k' := by
  induction obj with
  | nil =>
    have h1 : (k' == k) = false := beq_eq_false_iff_ne.2 hne
    rw [List.nil_append, lookup_cons_miss h1]
  | cons p t ih =>
    obtain ⟨a, b⟩ := p
    cases hk' : (k' == a)
    · rw [List.cons_append, lookup_cons_miss hk', lookup_cons_miss hk', ih]
    · rw [List.cons_append, lookup_cons_hit hk', lookup_cons_hit hk']

lemma lookup_setKey_ne (obj : JObj) (k k' : String) (v : JVal) (hne : k' ≠ k) :
    (setKey obj k v).lookup k' = obj.lookup k' := by
  rw [setKey]
  cases h : obj.any (fun p => p.1 == k)
  · rw [if_neg (by simp)]
    exact lookup_append_single_ne k k' v obj hne
  · rw [if_pos rfl]
    exact lookup_replace_ne k k' v obj hne

lemma map_fst_replace (obj : JObj) (k : String) (v : JVal) :
    (obj.map (fun p => if p.1 == k then (k, v) else p)).map Prod.fst
      = obj.map Prod.fst := by
  induction obj with
  | nil => rfl
  | cons p t ih =>
    obtain ⟨a, b⟩ := p
    cases hp : a == k
    · rw [List.map_cons, if_neg (by simp [hp]), List.map_cons, List.map_cons, ih]
    · have hak : a = k := by simpa using hp
      rw [List.map_cons, if_pos hp, List.map_cons, List.map_cons, ih]
      simp [hak]

lemma map_fst_setKey_of_mem {obj : JObj} {k : String} (v : JVal)
    (h : k ∈ obj.map Prod.fst) :
    (setKey obj k v).map Prod.fst = obj.map Prod.fst := by
  rw [setKey, if_pos ((any_key_iff obj k).2 h)]
  exact map_fst_replace obj k v

lemma map_fst_setKey_of_not_mem {obj : JObj} {k : String} (v : JVal)
    (h : ¬ k ∈ obj.map Prod.fst) :
    (setKey obj k v).map Prod.fst = obj.map Prod.fst ++ [k] := by
  have h' : obj.any (fun p => p.1 == k) = false := by
    cases hh : obj.any (fun p => p.1 == k)
    · rfl
    · exact absurd ((any_key_iff obj k).1 hh) h
  rw [setKey, h']
  simp

lemma stringMk_data (s : String) : String.mk s.data = s := by
  obtain ⟨d⟩ := s; rfl

lemma splitDash_no_dash (cs : List Char) (h : ¬ '-' ∈ cs) : splitDash cs = [cs] := by
  induction cs with
  | nil => rfl
  | cons c rest ih =>
    have hc : ¬ c = '-' := fun hh => h (hh ▸ List.mem_cons_self c rest)
    have hr : ¬ '-' ∈ rest := fun hh => h (List.mem_cons_of_mem c hh)
    simp only [splitDash]
    rw [if_neg hc, ih hr]

lemma splitDash_append_dash (xs ys : List Char) (h : ¬ '-' ∈ xs) :
    splitDash (xs ++ '-' :: ys) = xs :: splitDash ys := by
  induction xs with
  | nil => simp [splitDash]
  | cons x xt ih =>
    have hx : ¬ x = '-' := fun hh => h (hh ▸ List.mem_cons_self x xt)
    have hxt : ¬ '-' ∈ xt := fun hh => h (List.mem_cons_of_mem x hh)
    rw [List.cons_append]
    simp only [splitDash]
    rw [if_neg hx, ih hxt]

lemma data_joinWith_three (s1 s2 s3 : String) :
    (joinWith ("-") [s1, s2, s3]).data
      = s1.data ++ '-' :: (s2.data ++ '-' :: s3.data) := by
  simp [joinWith, String.data_append]

lemma dashComponents_joinWith_three (s1 s2 s3 : String)
    (h1 : ¬ '-' ∈ s1.data) (h2 : ¬ '-' ∈ s2.data) (h3 : ¬ '-' ∈ s3.data) :
    dashComponents (joinWith ("-") [s1, s2, s3]) = [s1, s2, s3] := by
  rw [dashComponents, data_joinWith_three, splitDash_append_dash _ _ h1,
    splitDash_append_dash _ _ h2, splitDash_no_dash _ h3]
  simp [stringMk_data]

lemma joinWith_three_ne_empty (s1 s2 s3 : String) :
    joinWith ("-") [s1, s2, s3] ≠ "" := by
  intro h
  have hd := congrArg String.data h
  rw [data_joinWith_three] at hd
  simp at hd

lemma length_five_shape {l : List String} (h : l.length = 5) :
    ∃ a b c d e, l = [a, b, c, d, e] := by
  rcases l with _ | ⟨a, _ | ⟨b, _ | ⟨c, _ | ⟨d, _ | ⟨e, _ | ⟨x, t⟩⟩⟩⟩⟩⟩ <;> simp at h
  exact ⟨a, b, c, d, e, rfl⟩

lemma export_and_package_ok_clears (env : StepEnv) (v : Voice) (w : List String)
    (h : (export_and_package env v w).fst = Except.ok ()) :
    (export_and_package env v w).snd = [] := by
  obtain ⟨d, ex, cf, up⟩ := env
  cases d <;> cases ex <;> cases cf <;> cases up <;>
    simp only [export_and_package, Bool.not_true, Bool.not_false, if_true, if_false] at h ⊢ <;>
    first
    | rfl
    | (cases hdn : deriveName v.name <;> simp [hdn] at h ⊢)

lemma get_updated_voices_subset {fetch : MetadataFetch} {voices updated : List Voice}
    (h : get_updated_voices fetch voices = Except.ok updated) : updated ⊆ voices := by
  cases fetch with
  | notFound =>
    simp only [get_updated_voices, Except.ok.injEq] at h
    exact h ▸ List.Subset.refl voices
  | httpError code => simp [get_updated_voices] at h
  | ok body =>
    cases hp : parseVoices body with
    | none => rw [get_updated_voices, hp] at h; cases h
    | some processed =>
      rw [get_updated_voices, hp] at h
      simp only [Except.ok.injEq] at h
      exact h ▸ (resolveDelta_sublist processed voices).subset

/-! ### Concrete sample data used by witnesses and counterexamples -/

/-- The published record of the spec's delta example. -/
def pubX : Voice := { name := "n0", config := "a", checkpoint := "b", etag := "x" }

/-- First discovered voice of the delta example (already published). -/
def dX1 : Voice := { name := "n1", config := "a", checkpoint := "b", etag := "x" }

/-- Second discovered voice of the delta example (changed checkpoint). -/
def dX2 : Voice := { name := "n2", config := "a", checkpoint := "c", etag := "y" }

/-- A three-voice upstream listing. -/
def listingW : List PPath :=
  [["col", "en", "amy", "medium", "config.json"],
   ["col", "en", "amy", "medium", "e1.ckpt"],
   ["col", "en", "bob", "low", "config.json"],
   ["col", "en", "bob", "low", "e2.ckpt"],
   ["col", "en", "cat", "high", "config.json"],
   ["col", "en", "cat", "high", "e3.ckpt"]]

/-- A constant etag oracle. -/
def etagW : PPath → String := fun _ => "tag"

/-- A per-voice environment where every step succeeds. -/
def envAllOk : StepEnv :=
  { downloadOk := true, exportOk := true, configOk := true, uploadOk := true }

/-- A per-voice environment where the checkpoint download raises. -/
def envFailDownload : StepEnv :=
  { downloadOk := false, exportOk := true, configOk := true, uploadOk := true }

/-- Fail exactly the middle voice of `listingW`. -/
def envW : Voice → StepEnv := fun v =>
  if v.name == "en-bob-low" then envFailDownload else envAllOk

/-- The per-iteration success flags of a run, `none` when the run aborted. -/
def traceFlags : Except PipelineError RunOutput → Option (List Bool)
  | Except.ok o => some (o.trace.map (fun t => t.2.2))
  | Except.error _ => none

/-- The concrete three-voice run: middle voice fails, outer voices succeed. -/
def runResW : Except PipelineError RunOutput :=
  run etagW listingW MetadataFetch.notFound envW

/-- The output of `runResW` (it does succeed). -/
def outW : RunOutput :=
  match runResW with
  | Except.ok o => o
  | Except.error _ => { trace := [], publishedIndex := [] }

/-- A listing whose single grouping directory has only one segment, so the
derived name is empty. -/
def listingShallow : List PPath := [["c", "config.json"], ["c", "m.ckpt"]]

/-- Two voices with well-formed three-part names. -/
def vA : Voice :=
  { name := "en-amy-medium", config := "ca", checkpoint := "ka", etag := "ea" }

/-- Second sample voice. -/
def vB : Voice :=
  { name := "en-bee-low", config := "cb", checkpoint := "kb", etag := "eb" }

/-- Every voice's transform raises at the download step. -/
def envFailAll : Voice → StepEnv := fun _ => envFailDownload

/-- Every voice's transform succeeds. -/
def envOkAll : Voice → StepEnv := fun _ => envAllOk

/-- The two-grouping listing of the name-derivation example. -/
def listing9 : List PPath :=
  [["collection", "en", "amy", "medium", "config.json"],
   ["collection", "en", "amy", "medium", "epoch=100.ckpt"]]

/-- The voice discovered from `listing9`. -/
def vAmy9 : Voice :=
  { name := "en-amy-medium", config := "collection/en/amy/medium/config.json",
    checkpoint := "collection/en/amy/medium/epoch=100.ckpt", etag := "tag" }

/-- The concrete config document of the config-transform example. -/
def config5 : JObj := [("key", JVal.str ("en-amy-medium")), ("other", JVal.num 1)]

/-! ### Claim theorems -/

/-- C1.  Delta resolution: for every published index and discovered list,
`get_updated_voices` returns exactly the discovered voices for which no
published record matches on `config`, `checkpoint` and `etag`; the `name`
field plays no part (renaming every published record leaves the result
unchanged); and on the spec's example the result is the second record
only. -/
theorem C1_delta_resolution :
    (∀ (pub voices : List Voice),
      get_updated_voices (MetadataFetch.ok (dump_voices_metadata pub)) voices
          = Except.ok (resolveDelta pub voices)
      ∧ (∀ v, v ∈ resolveDelta pub voices ↔ v ∈ voices ∧
          ∀ p ∈ pub, ¬(p.config = v.config ∧ p.checkpoint = v.checkpoint ∧ p.etag = v.etag))
      ∧ ∀ rename : Voice → String,
          resolveDelta (pub.map (fun p => { p with name := rename p })) voices
            = resolveDelta pub voices)
    ∧ get_updated_voices (MetadataFetch.ok (dump_voices_metadata [pubX])) [dX1, dX2]
        = Except.ok [dX2] := by
  refine ⟨fun pub voices => ⟨?_, fun v => mem_resolveDelta,
    fun rename => resolveDelta_map_name rename pub voices⟩, rfl⟩
  rw [get_updated_voices, parseVoices_dump]

/-- C4.  Absent published index: a 401 from the metadata endpoint makes
`get_updated_voices` return every discovered voice, without raising, and
behaves identically to an empty published index. -/
theorem C4_absent_index :
    ∀ voices : List Voice,
      get_updated_voices MetadataFetch.notFound voices = Except.ok voices
      ∧ get_updated_voices MetadataFetch.notFound voices
          = get_updated_voices (MetadataFetch.ok []) voices := by
  intro voices
  refine ⟨rfl, ?_⟩
  show Except.ok voices = get_updated_voices (MetadataFetch.ok []) voices
  rw [get_updated_voices]
  show Except.ok voices = Except.ok (resolveDelta [] voices)
  rw [resolveDelta_nil_processed]

/-- C10.  Metadata round-trip: serializing any voice list the way
`dump_voices_metadata` does and parsing it back the way
`get_updated_voices` does reconstructs the original list. -/
theorem C10_metadata_roundtrip :
    ∀ voices : List Voice,
      parseVoices (dump_voices_metadata voices) = some voices :=
  parseVoices_dump

/-- C2.  Failure isolation: whenever delta resolution succeeds, the run
reaches metadata publication with every resolved voice attempted exactly
once, in order, whatever the per-voice outcomes; and on the concrete
three-voice run where voice 2's transform raises, the per-voice outcomes
are success, failure, success. -/
theorem C2_failure_isolation :
    (∀ (etagOf : PPath → String) (files : List PPath) (fetch : MetadataFetch)
        (envOf : Voice → StepEnv) (updated : List Voice),
      get_updated_voices fetch (discoverVoices etagOf files) = Except.ok updated →
      ∃ out, run etagOf files fetch envOf = Except.ok out
        ∧ out.trace.map (fun t => t.2.1) = updated)
    ∧ traceFlags (run etagW listingW MetadataFetch.notFound envW)
        = some [true, false, true] := by
  refine ⟨fun etagOf files fetch envOf updated h => ?_, by decide⟩
  refine ⟨{ trace := loopTrace envOf updated []
            publishedIndex := dump_voices_metadata (discoverVoices etagOf files) },
    ?_, loopTrace_voices envOf updated []⟩
  rw [run, h]

/-- C2 witness: on the concrete three-voice run, delta resolution succeeds
(the fetch is a 401) and the general theorem applies. -/
theorem C2_failure_isolation_witness :
    get_updated_voices MetadataFetch.notFound (discoverVoices etagW listingW)
        = Except.ok (discoverVoices etagW listingW)
    ∧ ∃ out, run etagW listingW MetadataFetch.notFound envW = Except.ok out
        ∧ out.trace.map (fun t => t.2.1) = discoverVoices etagW listingW :=
  ⟨rfl, C2_failure_isolation.1 etagW listingW MetadataFetch.notFound envW
    (discoverVoices etagW listingW) rfl⟩

/-- C3.  Discovery: on a duplicate-free listing, the number of discovered
voices equals the number of distinct groupings holding both a
`config.json` and a checkpoint candidate, and every discovered voice
arises from such a qualifying config; groupings without a checkpoint
contribute nothing (and no error is possible — discovery is total). -/
theorem C3_discovery_count (etagOf : PPath → String) (files : List PPath)
    (hnd : files.Nodup) :
    (discoverVoices etagOf files).length = (qualifyingGroupings files).length
    ∧ ∀ v ∈ discoverVoices etagOf files,
        ∃ cfg, cfg ∈ files ∧ pname cfg = "config.json" ∧
          ∃ ck, findCkpt files (parentDir cfg) = some ck ∧ v = mkVoice etagOf cfg ck := by
  refine ⟨?_, fun v hv => mem_discoverVoices.1 hv⟩
  rw [length_discoverVoices_eq_qualifyingConfigs, length_qualifyingGroupings hnd]

/-- C3 witness: the three-voice listing is duplicate-free and the theorem
applies to it. -/
theorem C3_discovery_count_witness :
    listingW.Nodup
    ∧ ((discoverVoices etagW listingW).length = (qualifyingGroupings listingW).length
      ∧ ∀ v ∈ discoverVoices etagW listingW,
          ∃ cfg, cfg ∈ listingW ∧ pname cfg = "config.json" ∧
            ∃ ck, findCkpt listingW (parentDir cfg) = some ck
              ∧ v = mkVoice etagW cfg ck) :=
  ⟨by decide, C3_discovery_count etagW listingW (by decide)⟩

/-- C6.  Published index contents: whenever a run completes, the metadata
document it publishes is the serialization of the full discovered set, and
every attempted voice — in particular every voice whose transform failed —
still has its record in the published index. -/
theorem C6_published_index :
    ∀ (etagOf : PPath → String) (files : List PPath) (fetch : MetadataFetch)
      (envOf : Voice → StepEnv) (out : RunOutput),
      run etagOf files fetch envOf = Except.ok out →
      out.publishedIndex = dump_voices_metadata (discoverVoices etagOf files)
      ∧ ∀ t ∈ out.trace, voiceToJson t.2.1 ∈ out.publishedIndex := by
  intro etagOf files fetch envOf out h
  cases hf : get_updated_voices fetch (discoverVoices etagOf files) with
  | error e => rw [run, hf] at h; cases h
  | ok updated =>
    rw [run, hf] at h
    simp only [Except.ok.injEq] at h
    subst h
    refine ⟨rfl, fun t ht => ?_⟩
    have hmem : t.2.1 ∈ updated := by
      rw [← loopTrace_voices envOf updated []]
      exact List.mem_map_of_mem (fun t => t.2.1) ht
    exact List.mem_map_of_mem voiceToJson (get_updated_voices_subset hf hmem)

/-- C6 witness: the concrete three-voice run (with a failing middle voice)
completes, and the theorem applies to its output. -/
theorem C6_published_index_witness :
    outW.publishedIndex = dump_voices_metadata (discoverVoices etagW listingW)
    ∧ ∀ t ∈ outW.trace, voiceToJson t.2.1 ∈ outW.publishedIndex :=
  C6_published_index etagW listingW MetadataFetch.notFound envW outW rfl

/-- C5.  Config transform: for a voice name with exactly three
dash-separated parts and a config document holding a `key` field, the
transform sets `streaming` to true, rewrites `key` to the derived
`language-base+RT-quality` name, preserves every other field and the field
order (appending `streaming` at the end when absent); and the spec's
concrete example holds. -/
theorem C5_config_transform :
    (∀ (config : JObj) (name p0 p1 p2 : String),
      dashComponents name = [p0, p1, p2] →
      ("key") ∈ config.map Prod.fst →
      ∃ out, transformConfig name config = some out
        ∧ out.lookup ("streaming") = some (JVal.bool true)
        ∧ out.lookup ("key") = some (JVal.str (p0 ++ "-" ++ p1 ++ "+RT" ++ "-" ++ p2))
        ∧ (∀ k, ¬ k = "streaming" → ¬ k = "key" → out.lookup k = config.lookup k)
        ∧ out.map Prod.fst
            = (if ("streaming") ∈ config.map Prod.fst then config.map Prod.fst
               else config.map Prod.fst ++ ["streaming"]))
    ∧ transformConfig ("en-amy-medium") config5
      = some [("key", JVal.str ("en-amy+RT-medium")), ("other", JVal.num 1),
              ("streaming", JVal.bool true)] := by
  refine ⟨?_, by decide⟩
  intro config name p0 p1 p2 hsplit hkey
  have hder : deriveName name = some (joinWith ("-") [p0, p1 ++ "+RT", p2]) := by
    rw [deriveName, hsplit]
  have hjw : joinWith ("-") [p0, p1 ++ "+RT", p2]
      = p0 ++ "-" ++ p1 ++ "+RT" ++ "-" ++ p2 := by
    simp [joinWith, String.append_assoc]
  have hsk : ("streaming" : String) ≠ "key" := by decide
  refine ⟨setKey (setKey config ("streaming") (JVal.bool true)) ("key")
    (JVal.str (joinWith ("-") [p0, p1 ++ "+RT", p2])), ?_, ?_, ?_, ?_, ?_⟩
  · simp only [transformConfig, hder]
  · rw [lookup_setKey_ne _ _ _ _ hsk]
    exact lookup_setKey_self config ("streaming") (JVal.bool true)
  · rw [lookup_setKey_self, hjw]
  · intro k hks hkk
    rw [lookup_setKey_ne _ _ _ _ hkk, lookup_setKey_ne _ _ _ _ hks]
  · have hkeyc1 : ("key") ∈ (setKey config ("streaming") (JVal.bool true)).map Prod.fst := by
      by_cases hs : ("streaming") ∈ config.map Prod.fst
      · rw [map_fst_setKey_of_mem _ hs]; exact hkey
      · rw [map_fst_setKey_of_not_mem _ hs]; exact List.mem_append_left _ hkey
    rw [map_fst_setKey_of_mem _ hkeyc1]
    by_cases hs : ("streaming") ∈ config.map Prod.fst
    · rw [if_pos hs, map_fst_setKey_of_mem _ hs]
    · rw [if_neg hs, map_fst_setKey_of_not_mem _ hs]

/-- C5 witness: the theorem applies to the spec's example document and
name. -/
theorem C5_config_transform_witness :
    dashComponents ("en-amy-medium") = ["en", "amy", "medium"]
    ∧ ("key") ∈ config5.map Prod.fst
    ∧ ∃ out, transformConfig ("en-amy-medium") config5 = some out
        ∧ out.lookup ("streaming") = some (JVal.bool true)
        ∧ out.lookup ("key")
            = some (JVal.str ("en" ++ "-" ++ "amy" ++ "+RT" ++ "-" ++ "medium"))
        ∧ (∀ k, ¬ k = "streaming" → ¬ k = "key" → out.lookup k = config5.lookup k)
        ∧ out.map Prod.fst
            = (if ("streaming") ∈ config5.map Prod.fst then config5.map Prod.fst
               else config5.map Prod.fst ++ ["streaming"]) :=
  ⟨by decide, by decide, C5_config_transform.1 config5 ("en-amy-medium")
    ("en") ("amy") ("medium") (by decide) (by decide)⟩

/-- C7 counterexample: with two voices whose downloads both raise, the
second iteration begins with `exported/` still in the working directory —
the claim that the directory is fully cleared before every next iteration,
success or failure alike, is false on the code. -/
theorem C7_cleanup_counterexample :
    ¬ (∀ t ∈ loopTrace envFailAll [vA, vB] [], t.1 = ([] : List String)) := by
  decide

/-- C7 amended: cleanup is tied to the success path only — when the
transform completes successfully (through upload), the cleanup step clears
the whole working directory and the next iteration starts empty; when the
transform raises, no cleanup runs and the next iteration starts with
whatever the failed one left behind. -/
theorem C7_cleanup_amended :
    ∀ (envOf : Voice → StepEnv) (v : Voice) (rest : List Voice) (w : List String),
      (export_and_package (envOf v) v w).fst = Except.ok () →
      (export_and_package (envOf v) v w).snd = []
      ∧ loopTrace envOf (v :: rest) w = (w, v, true) :: loopTrace envOf rest [] := by
  intro envOf v rest w h
  have hclr := export_and_package_ok_clears (envOf v) v w h
  refine ⟨hclr, ?_⟩
  simp only [loopTrace]
  rw [h, hclr]
  rfl

/-- C7 amended witness: a fully successful transform from a dirty
directory clears it, and the loop's next iteration starts empty. -/
theorem C7_cleanup_amended_witness :
    (export_and_package (envOkAll vA) vA (["junk"])).fst = Except.ok ()
    ∧ ((export_and_package (envOkAll vA) vA (["junk"])).snd = []
      ∧ loopTrace envOkAll (vA :: [vB]) (["junk"])
          = ((["junk"]), vA, true) :: loopTrace envOkAll [vB] []) :=
  ⟨rfl, C7_cleanup_amended envOkAll vA [vB] (["junk"]) rfl⟩

/-- C8 counterexample: discovery does not enforce the three-component name
shape — on a listing whose grouping directory has a single segment the
discovered voice's name is empty (zero of the claimed three components). -/
theorem C8_name_invariant_counterexample :
    ¬ (∀ v ∈ discoverVoices etagW listingShallow,
        v.name ≠ "" ∧ (dashComponents v.name).length = 3) := by
  decide

/-- C8 amended: the name invariant holds exactly when the listing is
well-shaped — every `config.json` sits at depth five
(collection/language/base/quality/config.json) with dash-free grouping
segments; then every discovered voice has a non-empty name with exactly
three dash-separated components. -/
theorem C8_name_invariant_amended :
    ∀ (etagOf : PPath → String) (files : List PPath),
      (∀ f ∈ files, pname f = "config.json" →
        f.length = 5 ∧ ∀ s ∈ (parentDir f).drop 1, ¬ '-' ∈ s.data) →
      ∀ v ∈ discoverVoices etagOf files,
        v.name ≠ "" ∧ (dashComponents v.name).length = 3 := by
  intro etagOf files hshape v hv
  obtain ⟨cfg, hcfg, hname, ck, hck, rfl⟩ := mem_discoverVoices.1 hv
  obtain ⟨hlen, hdash⟩ := hshape cfg hcfg hname
  obtain ⟨a, b, c, d, e, rfl⟩ := length_five_shape hlen
  have hb : ¬ '-' ∈ b.data := hdash b (by simp [parentDir])
  have hc : ¬ '-' ∈ c.data := hdash c (by simp [parentDir])
  have hd : ¬ '-' ∈ d.data := hdash d (by simp [parentDir])
  have hnm : (mkVoice etagOf [a, b, c, d, e] ck).name = joinWith ("-") [b, c, d] := by
    simp [mkVoice, parentDir]
  rw [hnm]
  refine ⟨joinWith_three_ne_empty b c d, ?_⟩
  rw [dashComponents_joinWith_three b c d hb hc hd]
  rfl

/-- C8 amended witness: the three-voice listing is well-shaped and the
amended invariant holds on it. -/
theorem C8_name_invariant_amended_witness :
    (∀ f ∈ listingW, pname f = "config.json" →
      f.length = 5 ∧ ∀ s ∈ (parentDir f).drop 1, ¬ '-' ∈ s.data)
    ∧ ∀ v ∈ discoverVoices etagW listingW,
        v.name ≠ "" ∧ (dashComponents v.name).length = 3 :=
  ⟨by decide, C8_name_invariant_amended etagW listingW (by decide)⟩

/-- C9.  Name derivation: every discovered voice's name is the dash-join
of its grouping directory's segments except the first; and on the grouping
`collection/en/amy/medium` the derived name is `en-amy-medium`. -/
theorem C9_name_derivation :
    (∀ (etagOf : PPath → String) (files : List PPath) (v : Voice),
      v ∈ discoverVoices etagOf files →
      ∃ cfg, cfg ∈ files ∧ pname cfg = "config.json"
        ∧ v.name = joinWith ("-") ((parentDir cfg).drop 1))
    ∧ (discoverVoices etagW listing9).map (fun v => v.name) = ["en-amy-medium"] := by
  refine ⟨fun etagOf files v hv => ?_, by decide⟩
  obtain ⟨cfg, hcfg, hname, ck, hck, rfl⟩ := mem_discoverVoices.1 hv
  exact ⟨cfg, hcfg, hname, rfl⟩

/-- C9 witness: the voice discovered from `listing9` instantiates the
theorem. -/
theorem C9_name_derivation_witness :
    vAmy9 ∈ discoverVoices etagW listing9
    ∧ ∃ cfg, cfg ∈ listing9 ∧ pname cfg = "config.json"
        ∧ vAmy9.name = joinWith ("-") ((parentDir cfg).drop 1) :=
  ⟨by decide, C9_name_derivation.1 etagW listing9 vAmy9 (by decide)⟩

end PiperRT
